import Mathlib

/-
Verification of the system-of-equations estimators in
linearmodels/system/model.py (IV3SLS, SUR, IVSystemGMM).

The Python source is shallowly embedded over exact rationals: numpy arrays
become Matrix over ℚ indexed by Fin types, per-equation block lists become
dependent functions, and numpy.linalg.solve / numpy.linalg.inv become the
adjugate-based inverse below.  Definitions follow the source line by line;
definitions whose bodies live in repository modules outside src/ (for
example linearmodels.system._utility or linearmodels.utility) are modelled
from the specification and say so in their doc comments.
-/

namespace LinearModels

/-- Matrix inverse over ℚ, written with the adjugate so that it is a
computable function.  `minv_eq_inv` shows it agrees with the Mathlib
noncomputable `Matrix.inv`, hence with the true inverse on nonsingular
matrices.  It embeds `numpy.linalg.inv`. -/
def minv {ι : Type} [Fintype ι] [DecidableEq ι] (A : Matrix ι ι ℚ) : Matrix ι ι ℚ :=
  (A.det)⁻¹ • A.adjugate

theorem minv_eq_inv {ι : Type} [Fintype ι] [DecidableEq ι] (A : Matrix ι ι ℚ) :
    minv A = A⁻¹ := by
  rw [Matrix.inv_def, Ring.inverse_eq_inv]
  rfl

theorem minv_mul {ι : Type} [Fintype ι] [DecidableEq ι] (A : Matrix ι ι ℚ)
    (h : A.det ≠ 0) : A * minv A = 1 := by
  rw [minv_eq_inv]
  exact Matrix.mul_nonsing_inv A (isUnit_iff_ne_zero.2 h)

/-- Embeds `numpy.linalg.solve(A, b)`: the solution of `A·x = b` for
nonsingular `A`, realized as `A⁻¹ · b`. -/
def msolve {ι κ : Type} [Fintype ι] [DecidableEq ι] (A : Matrix ι ι ℚ)
    (b : Matrix ι κ ℚ) : Matrix ι κ ℚ :=
  minv A * b

/-! ### Equation ingestion: object identity and the common-exogenous flag
(`IV3SLS._validate_data`, model.py lines 176-288) -/

/-- One equation of a system as supplied to the constructor in tuple form
`(dependent, exog, endog, instruments[, weights])`.  `exogObjId` and
`endogObjId` model CPython `id()` of the raw arrays handed in: two calls
supplying the *same* underlying object carry the same tag, distinct objects
carry distinct tags even when their numeric contents coincide.  `exogVals`
and `endogVals` are the numeric contents; `common_exog` below never reads
them, which is exactly the identity-not-value semantics of the source. -/
structure EqTupleSpec (n : ℕ) where
  exogObjId : ℕ
  exogVals : Fin n → ℚ
  endogObjId : ℕ
  endogVals : Fin n → ℚ
  endogCols : ℕ
  weights : Option (Fin n → ℚ)

/-- The entry appended to `ids` for one equation (model.py lines 188-193):
`id(exog)` alone, or the pair `(id(exog), id(endog))` when the equation has
endogenous columns. -/
def eq_obj_id {n : ℕ} (e : EqTupleSpec n) : ℕ ⊕ (ℕ × ℕ) :=
  if 0 < e.endogCols then Sum.inr (e.exogObjId, e.endogObjId) else Sum.inl e.exogObjId

/-- The weight vector of an equation: the supplied one, defaulting to a
column of ones (model.py lines 197-201). -/
def weight_vec {n : ℕ} (e : EqTupleSpec n) : Fin n → ℚ :=
  e.weights.getD (fun _ => 1)

/-- Weight normalization `w / nanmean(w)` applied in `_validate_data`
(model.py line 255). -/
def normalize_weights {n : ℕ} (w : Fin n → ℚ) : Fin n → ℚ :=
  fun r => w r / ((∑ s, w s) / (n : ℚ))

/-- The common-exogenous flag (model.py lines 239-244):
`len(set(ids)) == 1`, and, when that holds, all raw weight vectors must be
element-wise equal to those of the first equation. -/
def common_exog {n k : ℕ} (eqs : Fin (k + 1) → EqTupleSpec n) : Bool :=
  let ids := (List.finRange (k + 1)).map (fun i => eq_obj_id (eqs i))
  (ids.dedup.length == 1) &&
    decide (∀ i r, weight_vec (eqs i) r = weight_vec (eqs 0) r)

theorem dedup_length_one_all_eq {α : Type} [DecidableEq α] (l : List α)
    (h : l.dedup.length = 1) : ∀ a ∈ l, ∀ b ∈ l, a = b := by
  obtain ⟨x, hx⟩ := List.length_eq_one.1 h
  intro a ha b hb
  have ha2 : a ∈ l.dedup := List.mem_dedup.2 ha
  have hb2 : b ∈ l.dedup := List.mem_dedup.2 hb
  rw [hx] at ha2 hb2
  simp only [List.mem_singleton] at ha2 hb2
  rw [ha2, hb2]

/-- Claim C3: the common-exogenous flag is true only when the identity tags
of the raw exogenous (and, where endogenous columns are present, endogenous)
arrays agree across all equations, and only when all weight vectors agree
element-wise after normalization; and whenever two equations carry distinct
exogenous object tags — regardless of the numeric contents, which
`common_exog` never inspects — the flag is false. -/
theorem common_exog_requires_object_identity {n k : ℕ}
    (eqs : Fin (k + 1) → EqTupleSpec n) :
    (common_exog eqs = true →
      (∀ i j, eq_obj_id (eqs i) = eq_obj_id (eqs j)) ∧
      (∀ i j, (eqs i).exogObjId = (eqs j).exogObjId) ∧
      (∀ i j, normalize_weights (weight_vec (eqs i)) =
        normalize_weights (weight_vec (eqs j)))) ∧
    (∀ i j, (eqs i).exogObjId ≠ (eqs j).exogObjId → common_exog eqs = false) := by
  have hids : common_exog eqs = true →
      ∀ i j, eq_obj_id (eqs i) = eq_obj_id (eqs j) := by
    intro h i j
    rw [common_exog, Bool.and_eq_true] at h
    have hlen : ((List.finRange (k + 1)).map
        (fun i => eq_obj_id (eqs i))).dedup.length = 1 := by
      have := h.1
      simpa using this
    refine dedup_length_one_all_eq _ hlen _ ?_ _ ?_
    · exact List.mem_map_of_mem _ (List.mem_finRange i)
    · exact List.mem_map_of_mem _ (List.mem_finRange j)
  have hexog : (∀ i j, eq_obj_id (eqs i) = eq_obj_id (eqs j)) →
      ∀ i j, (eqs i).exogObjId = (eqs j).exogObjId := by
    intro h i j
    have hij := h i j
    unfold eq_obj_id at hij
    by_cases hi : 0 < (eqs i).endogCols <;> by_cases hj : 0 < (eqs j).endogCols <;>
      simp [hi, hj] at hij <;> tauto
  constructor
  · intro h
    refine ⟨hids h, hexog (hids h), ?_⟩
    have hw : ∀ i r, weight_vec (eqs i) r = weight_vec (eqs 0) r := by
      rw [common_exog, Bool.and_eq_true] at h
      exact of_decide_eq_true h.2
    intro i j
    funext r
    have hwij : weight_vec (eqs i) = weight_vec (eqs j) := by
      funext s
      rw [hw i s, hw j s]
    rw [hwij]
  · intro i j hne
    by_contra hcontra
    have : common_exog eqs = true := by
      cases hc : common_exog eqs
      · exact absurd hc hcontra
      · rfl
    exact hne (hexog (hids this) i j)

/-- Claim C3 witness data: two equations over two rows whose exogenous
blocks carry the same object tag (the same array reused), no endogenous
columns and default unit weights. -/
def cx3_eqs : Fin (1 + 1) → EqTupleSpec 2 :=
  fun _ =>
    { exogObjId := 7
      exogVals := fun _ => 1
      endogObjId := 0
      endogVals := fun _ => 0
      endogCols := 0
      weights := none }

/-- Claim C3 witness: the concrete identity-sharing pair is flagged
common-exogenous and its id entries agree. -/
theorem common_exog_requires_object_identity_witness :
    eq_obj_id (cx3_eqs 0) = eq_obj_id (cx3_eqs 1) :=
  ((common_exog_requires_object_identity cx3_eqs).1 (by decide)).1 0 1

/-! ### Fit path selection (`IV3SLS.fit`, model.py lines 373-374) -/

/-- The `method` argument of `IV3SLS.fit`: `None`, "gls" or "ols". -/
inductive FitMethod where
  | gls
  | ols
deriving DecidableEq, Fintype

/-- The dispatch on model.py line 373: the single-solve multivariate/OLS
path is taken when
`(self._common_exog and method is None and self._constraints is None) or
method == "ols"`; otherwise the GLS loop runs. -/
def fit_uses_ols_path (commonExog : Bool) (method : Option FitMethod)
    (hasConstraints : Bool) : Bool :=
  (commonExog && method.isNone && !hasConstraints) || (method == some FitMethod.ols)

/-- Claim C4: the OLS fast path is taken exactly when the common-exogenous
flag is set, no method was requested and no constraint is present, or when
`method="ols"` is forced — in which case regressor identity is irrelevant;
in every other configuration the GLS path runs. -/
theorem fit_uses_ols_path_iff :
    ∀ (ce : Bool) (m : Option FitMethod) (hc : Bool),
      fit_uses_ols_path ce m hc = true ↔
        ((ce = true ∧ m = none ∧ hc = false) ∨ m = some FitMethod.ols) := by
  decide

/-- Claim C4 witness: requesting `method="ols"` forces the OLS path even
with distinct regressors and a constraint present. -/
theorem fit_uses_ols_path_iff_witness :
    fit_uses_ols_path false (some FitMethod.ols) true = true :=
  (fit_uses_ols_path_iff false (some FitMethod.ols) true).2 (Or.inr rfl)

/-! ### SUR equation reformatting (`SUR.__init__`, model.py lines 981-998) -/

/-- The tuple-reformatting step of `SUR.__init__` (model.py lines 990-996):
a 3-tuple `(dependent, exog, w)` becomes
`(dependent, exog, None, None, w)`; any other tuple is extended with
`(None, None)`.  Tuples are modelled as lists of optional payloads, `none`
standing for Python `None`. -/
def sur_reformat_eqn {α : Type} (eqn : List (Option α)) : List (Option α) :=
  if eqn.length = 3 then eqn.take 2 ++ [none, none] ++ eqn.drop 2
  else eqn ++ [none, none]

/-- The endogenous entry the base-class tuple branch reads
(`eq_data[2]`, model.py line 190); `none` yields a zero-column matrix. -/
def tuple_endog {α : Type} (eqn : List (Option α)) : Option α :=
  eqn.getD 2 none

/-- The instruments entry the base-class tuple branch reads
(`eq_data[3]`, model.py line 196); `none` yields a zero-column matrix. -/
def tuple_instr {α : Type} (eqn : List (Option α)) : Option α :=
  eqn.getD 3 none

/-- The weights the base-class tuple branch uses (model.py lines 197-201):
`eq_data[4]` when the tuple has five elements, otherwise the default
(`none` here, standing for the column of ones built from the dependent). -/
def tuple_weights {α : Type} (eqn : List (Option α)) : Option α :=
  if eqn.length = 5 then eqn.getD 4 none else none

/-- Claim C10: `SUR.__init__` accepts a 2-tuple `(dependent, exog)` and
silently extends it with empty endogenous and instrument fields, and routes
the third element of a 3-tuple `(dependent, exog, weights)` into the
weights slot of the 5-tuple consumed by the base `IV3SLS` ingestion. -/
theorem sur_reformat_tuples {α : Type} (d e w : α) :
    sur_reformat_eqn [some d, some e] = [some d, some e, none, none] ∧
    sur_reformat_eqn [some d, some e, some w] = [some d, some e, none, none, some w] ∧
    tuple_endog (sur_reformat_eqn [some d, some e]) = none ∧
    tuple_instr (sur_reformat_eqn [some d, some e]) = none ∧
    tuple_weights (sur_reformat_eqn [some d, some e]) = none ∧
    tuple_endog (sur_reformat_eqn [some d, some e, some w]) = none ∧
    tuple_instr (sur_reformat_eqn [some d, some e, some w]) = none ∧
    tuple_weights (sur_reformat_eqn [some d, some e, some w]) = some w := by
  refine ⟨?_, ?_, ?_, ?_, ?_, ?_, ?_, ?_⟩ <;> rfl

/-! ### Block algebra and the system solves
(`IV3SLS._multivariate_ls_fit` model.py lines 400-433,
`IV3SLS._gls_estimate` lines 452-496) -/

/-- Index of the stacked parameter vector: equation `i` contributes
`p i` regressor columns, in equation order. -/
abbrev BIdx {k : ℕ} (p : Fin k → ℕ) := (i : Fin k) × Fin (p i)

/-- Modelled from the spec: `blocked_inner_prod` from
`linearmodels.system._utility` (not in src/), the "block inner product
against a weighting matrix": treating the list of per-equation matrices as
diagonal blocks of one stacked regressor matrix, block `(i, j)` of the
result is `S i j • (X i)ᵀ * (X j)`. -/
def blocked_inner_prod {k n : ℕ} {p : Fin k → ℕ}
    (X : ∀ i, Matrix (Fin n) (Fin (p i)) ℚ) (S : Matrix (Fin k) (Fin k) ℚ) :
    Matrix (BIdx p) (BIdx p) ℚ :=
  Matrix.of fun a b => S a.1 b.1 * ∑ r : Fin n, X a.1 r a.2 * X b.1 r b.2

/-- Modelled from the spec: `blocked_diag_product` from
`linearmodels.system._utility` (not in src/), the "block-diagonal product":
the stacked block-diagonal regressor matrix with row blocks mixed by `S`,
so that row block `i`, column block `j` is `S i j • X j`. -/
def blocked_diag_product {k n : ℕ} {p : Fin k → ℕ}
    (X : ∀ i, Matrix (Fin n) (Fin (p i)) ℚ) (S : Matrix (Fin k) (Fin k) ℚ) :
    Matrix (Fin k × Fin n) (BIdx p) ℚ :=
  Matrix.of fun rr c => S rr.1 c.1 * X c.1 rr.2 c.2

/-- Modelled from the spec: `blocked_column_product` from
`linearmodels.system._utility` (not in src/), the "block-column product":
the stacked dependent column with row blocks mixed by `S`. -/
def blocked_column_product {k n : ℕ} (Y : Fin k → Matrix (Fin n) (Fin 1) ℚ)
    (S : Matrix (Fin k) (Fin k) ℚ) : Matrix (Fin k × Fin n) (Fin 1) ℚ :=
  Matrix.of fun rr c => ∑ j, S rr.1 j * Y j rr.2 c

/-- The stacked `X̂ᵀy` vector built by the `xpy` loops of
`_multivariate_ls_fit` (model.py lines 406-409 and 416-419):
`np.vstack` of the per-equation `wxhat[i].T @ wy[i]`. -/
def ls_xpy {k n : ℕ} {p : Fin k → ℕ} (X : ∀ i, Matrix (Fin n) (Fin (p i)) ℚ)
    (Y : Fin k → Matrix (Fin n) (Fin 1) ℚ) : Matrix (BIdx p) (Fin 1) ℚ :=
  Matrix.of fun a c => ∑ r : Fin n, X a.1 r a.2 * Y a.1 r c

/-- The stacked right-hand side assembled by the loop on model.py
lines 477-482: block `i` is `wxhat[i].T @ (∑ j, sigma_inv[i, j] * wy[j])`. -/
def gls_xpy {k n : ℕ} {p : Fin k → ℕ} (X : ∀ i, Matrix (Fin n) (Fin (p i)) ℚ)
    (Y : Fin k → Matrix (Fin n) (Fin 1) ℚ) (S : Matrix (Fin k) (Fin k) ℚ) :
    Matrix (BIdx p) (Fin 1) ℚ :=
  Matrix.of fun a c => ∑ r : Fin n, X a.1 r a.2 * ∑ j, S a.1 j * Y j r c

/-- Modelled from the spec: `LinearConstraint` from
`linearmodels.system._utility` (not in src/).  It stores the restriction
`R·β = q` together with the precomputed transform pair `(T, a)` such that
every vector of the form `β = T·γ + aᵀ` satisfies the restriction; the two
proof fields express exactly that parameterization property. -/
structure LinearConstraintM (ι : Type) [Fintype ι] (m f : ℕ) where
  r : Matrix (Fin m) ι ℚ
  q : Matrix (Fin m) (Fin 1) ℚ
  t : Matrix ι (Fin f) ℚ
  a : Matrix (Fin 1) ι ℚ
  rt_eq : r * t = 0
  ra_eq : r * Matrix.transpose a = q

theorem constraint_param_form {ι : Type} [Fintype ι] {m f : ℕ}
    (c : LinearConstraintM ι m f) (G : Matrix (Fin f) (Fin 1) ℚ) :
    c.r * (c.t * G + Matrix.transpose c.a) = c.q := by
  rw [Matrix.mul_add, ← Matrix.mul_assoc, c.rt_eq, Matrix.zero_mul, zero_add, c.ra_eq]

/-- Embeds `IV3SLS._multivariate_ls_fit` (model.py lines 400-423): the stacked
parameter vector of the multivariate/OLS solve.  With a constraint the
solve is projected onto the constrained subspace through `(T, a)`
(lines 403-413); without one it is the plain stacked normal-equation solve
with identity cross-equation weighting (lines 415-421). -/
def multivariate_ls_params {k n m f : ℕ} {p : Fin k → ℕ}
    (cons : Option (LinearConstraintM (BIdx p) m f))
    (wxhat : ∀ i, Matrix (Fin n) (Fin (p i)) ℚ)
    (wy : Fin k → Matrix (Fin n) (Fin 1) ℚ) : Matrix (BIdx p) (Fin 1) ℚ :=
  let xpx_full := blocked_inner_prod wxhat (1 : Matrix (Fin k) (Fin k) ℚ)
  let xpy := ls_xpy wxhat wy
  match cons with
  | some c =>
      c.t * msolve (Matrix.transpose c.t * xpx_full * c.t)
          (Matrix.transpose c.t * xpy -
            Matrix.transpose c.t * xpx_full * Matrix.transpose c.a) +
        Matrix.transpose c.a
  | none => msolve xpx_full xpy

/-- The residual covariance estimate `eps.T @ eps / nobs` rescaled by
`_sigma_scale` (model.py lines 456-458 and 845-851).  The scale matrix is
`1` when `debiased=False`; the debiased scale involves real square roots,
so it enters as a parameter. -/
def residual_sigma {k nobs : ℕ} (eps : Matrix (Fin nobs) (Fin k) ℚ)
    (scale : Matrix (Fin k) (Fin k) ℚ) : Matrix (Fin k) (Fin k) ℚ :=
  Matrix.of fun i j => (∑ r, eps r i * eps r j) / (nobs : ℚ) * scale i j

/-- The residual covariance used by one GLS step (model.py lines 455-461):
the externally supplied `Σ` when the model was constructed with one,
otherwise the residual-based estimate; off-diagonal entries are zeroed when
`full_cov=False`. -/
def gls_sigma {k nobs : ℕ} (supplied : Option (Matrix (Fin k) (Fin k) ℚ))
    (eps : Matrix (Fin nobs) (Fin k) ℚ) (scale : Matrix (Fin k) (Fin k) ℚ)
    (full_cov : Bool) : Matrix (Fin k) (Fin k) ℚ :=
  let s := match supplied with
    | some s0 => s0
    | none => residual_sigma eps scale
  if full_cov then s else Matrix.of fun i j => if i = j then s i j else 0

/-- Embeds `IV3SLS._gls_estimate` (model.py lines 452-496): the stacked parameter
vector of one GLS step.  `sigma_m12` stands for `inv_matrix_sqrt(sigma)`
(computed in `linearmodels.system._utility`, not in src/, via a real
eigendecomposition, so it enters as a parameter; it is only used on the
constrained branch, lines 465-474).  The unconstrained branch
(lines 475-484) assembles `X̂ᵀΣ⁻¹X̂` as a block inner product. -/
def gls_estimate_params {k n nobs m f : ℕ} {p : Fin k → ℕ}
    (cons : Option (LinearConstraintM (BIdx p) m f))
    (supplied : Option (Matrix (Fin k) (Fin k) ℚ))
    (eps : Matrix (Fin nobs) (Fin k) ℚ) (scale : Matrix (Fin k) (Fin k) ℚ)
    (full_cov : Bool) (sigma_m12 : Matrix (Fin k) (Fin k) ℚ)
    (wxhat : ∀ i, Matrix (Fin n) (Fin (p i)) ℚ)
    (wy : Fin k → Matrix (Fin n) (Fin 1) ℚ) : Matrix (BIdx p) (Fin 1) ℚ :=
  let sigma := gls_sigma supplied eps scale full_cov
  let sigma_inv := minv sigma
  match cons with
  | some c =>
      let x := blocked_diag_product wxhat sigma_m12
      let y := blocked_column_product wy sigma_m12
      let xt := x * c.t
      c.t * msolve (Matrix.transpose xt * xt)
          (Matrix.transpose xt * (y - x * Matrix.transpose c.a)) +
        Matrix.transpose c.a
  | none => msolve (blocked_inner_prod wxhat sigma_inv) (gls_xpy wxhat wy sigma_inv)

/-- Claim C1 (amended: the GMM path is excluded, see the counterexample):
whenever a valid linear constraint is attached, both the multivariate/OLS
solve and every GLS step return a parameter vector satisfying `R·β = q`
exactly, because both parameterize the solution as `β = T·γ + aᵀ`. -/
theorem constrained_fit_satisfies_constraint {k n nobs m f : ℕ} {p : Fin k → ℕ}
    (c : LinearConstraintM (BIdx p) m f)
    (wxhat : ∀ i, Matrix (Fin n) (Fin (p i)) ℚ)
    (wy : Fin k → Matrix (Fin n) (Fin 1) ℚ)
    (supplied : Option (Matrix (Fin k) (Fin k) ℚ))
    (eps : Matrix (Fin nobs) (Fin k) ℚ) (scale : Matrix (Fin k) (Fin k) ℚ)
    (full_cov : Bool) (sigma_m12 : Matrix (Fin k) (Fin k) ℚ) :
    c.r * multivariate_ls_params (some c) wxhat wy = c.q ∧
    c.r * gls_estimate_params (some c) supplied eps scale full_cov sigma_m12 wxhat wy = c.q := by
  constructor
  · exact constraint_param_form c _
  · exact constraint_param_form c _

/-! ### The stacked closed-form GLS estimator (claim C6) -/

/-- The stacked block-diagonal regressor matrix `X` of the system representation used by the spec
representation. -/
def block_diag {k n : ℕ} {p : Fin k → ℕ}
    (X : ∀ i, Matrix (Fin n) (Fin (p i)) ℚ) :
    Matrix (Fin k × Fin n) (BIdx p) ℚ :=
  Matrix.of fun rr c => if rr.1 = c.1 then X c.1 rr.2 c.2 else 0

/-- The stacked dependent column `Y` of the stacked system representation. -/
def block_col {k n : ℕ} (Y : Fin k → Matrix (Fin n) (Fin 1) ℚ) :
    Matrix (Fin k × Fin n) (Fin 1) ℚ :=
  Matrix.of fun rr c => Y rr.1 rr.2 c

/-- The Kronecker-structured weighting `S ⊗ Iₙ` acting on the stacked
system. -/
def kron_id (k n : ℕ) (S : Matrix (Fin k) (Fin k) ℚ) :
    Matrix (Fin k × Fin n) (Fin k × Fin n) ℚ :=
  Matrix.of fun a b => S a.1 b.1 * (if a.2 = b.2 then 1 else 0)

/-- Follows the wording of the spec (section 8): the closed-form GLS estimator
`(XᵀΣ⁻¹X)⁻¹ XᵀΣ⁻¹Y` assembled over the stacked system, with
`Ω⁻¹ = Σ⁻¹ ⊗ Iₙ` as in the model notes. -/
def spec_stacked_gls {k n : ℕ} {p : Fin k → ℕ}
    (S : Matrix (Fin k) (Fin k) ℚ) (X : ∀ i, Matrix (Fin n) (Fin (p i)) ℚ)
    (Y : Fin k → Matrix (Fin n) (Fin 1) ℚ) : Matrix (BIdx p) (Fin 1) ℚ :=
  msolve (Matrix.transpose (block_diag X) * kron_id k n (minv S) * block_diag X)
    (Matrix.transpose (block_diag X) * kron_id k n (minv S) * block_col Y)

theorem stacked_xpx {k n : ℕ} {p : Fin k → ℕ}
    (X : ∀ i, Matrix (Fin n) (Fin (p i)) ℚ) (S : Matrix (Fin k) (Fin k) ℚ) :
    Matrix.transpose (block_diag X) * kron_id k n S * block_diag X =
      blocked_inner_prod X S := by
  ext a b
  obtain ⟨i, ai⟩ := a
  obtain ⟨j, bj⟩ := b
  simp only [blocked_inner_prod, block_diag, kron_id, Matrix.mul_apply,
    Matrix.transpose_apply, Matrix.of_apply, Fintype.sum_prod_type]
  simp only [ite_mul, mul_ite, zero_mul, mul_zero, mul_one,
    Finset.sum_ite_eq, Finset.sum_ite_eq', Finset.mem_univ, if_true]
  rw [Finset.sum_comm]
  simp only [Finset.sum_ite_eq', Finset.mem_univ, if_true]
  rw [Finset.mul_sum]
  exact Finset.sum_congr rfl (fun r _ => by ring)

theorem stacked_xpy {k n : ℕ} {p : Fin k → ℕ}
    (X : ∀ i, Matrix (Fin n) (Fin (p i)) ℚ) (Y : Fin k → Matrix (Fin n) (Fin 1) ℚ)
    (S : Matrix (Fin k) (Fin k) ℚ) :
    Matrix.transpose (block_diag X) * kron_id k n S * block_col Y = gls_xpy X Y S := by
  ext a c
  obtain ⟨i, ai⟩ := a
  simp only [gls_xpy, block_col, block_diag, kron_id, Matrix.mul_apply,
    Matrix.transpose_apply, Matrix.of_apply, Fintype.sum_prod_type]
  simp only [ite_mul, mul_ite, zero_mul, mul_zero, mul_one,
    Finset.sum_ite_eq, Finset.sum_ite_eq', Finset.mem_univ, if_true]
  rw [Finset.sum_comm]
  refine Finset.sum_congr rfl (fun r _ => ?_)
  rw [Finset.mul_sum]
  exact Finset.sum_congr rfl (fun j _ => by ring)

/-- Claim C6: when the system carries an externally supplied residual
covariance `Σ`, a single (unconstrained, `full_cov=True`) GLS pass uses
that `Σ` — not the residual-based estimate — and its parameter vector is
exactly the closed-form stacked GLS estimator `(XᵀΣ⁻¹X)⁻¹ XᵀΣ⁻¹Y`
assembled as a block inner product over the equations. -/
theorem supplied_sigma_gls_closed_form {k n nobs m f : ℕ} {p : Fin k → ℕ}
    (S : Matrix (Fin k) (Fin k) ℚ)
    (eps : Matrix (Fin nobs) (Fin k) ℚ) (scale : Matrix (Fin k) (Fin k) ℚ)
    (sigma_m12 : Matrix (Fin k) (Fin k) ℚ)
    (wxhat : ∀ i, Matrix (Fin n) (Fin (p i)) ℚ)
    (wy : Fin k → Matrix (Fin n) (Fin 1) ℚ) :
    gls_sigma (some S) eps scale true = S ∧
    gls_estimate_params (none : Option (LinearConstraintM (BIdx p) m f))
        (some S) eps scale true sigma_m12 wxhat wy = spec_stacked_gls S wxhat wy := by
  constructor
  · rfl
  · show msolve (blocked_inner_prod wxhat (minv S)) (gls_xpy wxhat wy (minv S)) =
      spec_stacked_gls S wxhat wy
    rw [spec_stacked_gls, stacked_xpx, stacked_xpy]

/-! ### The iterative GLS driver loop (`IV3SLS.fit`, model.py lines 323-386) -/

/-- Default `tol` of `IV3SLS.fit` (model.py line 323): `1e-6`. -/
def fit_tol_default : ℚ := 1 / 1000000

/-- Default `iter_limit` of `IV3SLS.fit` (model.py line 323). -/
def fit_iter_limit_default : ℕ := 100

/-- The `delta >= tol` test of the loop guard (model.py line 380);
`none` models the initial `delta = inf`, which exceeds every tolerance. -/
def gls_delta_ge (d : Option ℚ) (tol : ℚ) : Bool :=
  match d with
  | none => true
  | some d0 => decide (tol ≤ d0)

/-- The loop guard of model.py line 380:
`((iter_count < iter_limit and iterate) or iter_count == 0) and delta >= tol`. -/
def gls_loop_cond (iterate : Bool) (iter_limit : ℕ) (tol : ℚ) (c : ℕ)
    (d : Option ℚ) : Bool :=
  ((decide (c < iter_limit) && iterate) || (c == 0)) && gls_delta_ge d tol

/-- The `while` loop of `IV3SLS.fit` (model.py lines 378-386) abstracted
over the sequence of root-mean-square parameter changes: `deltas t` is the
`delta` the loop computes at the end of the pass whose entry counter is
`t`.  Returns the final `iter_count`.  The fuel argument only rules out
divergence; `iter_limit + 2` passes always suffice because the guard fails
once the counter reaches `max 1 iter_limit`. -/
def gls_loop_count_aux (iterate : Bool) (iter_limit : ℕ) (tol : ℚ)
    (deltas : ℕ → ℚ) : ℕ → ℕ → Option ℚ → ℕ
  | 0, c, _ => c
  | fuel + 1, c, d =>
      if gls_loop_cond iterate iter_limit tol c d then
        gls_loop_count_aux iterate iter_limit tol deltas fuel (c + 1) (some (deltas c))
      else c

/-- The `iter_count` reached by the iterative-GLS loop, starting from
`iter_count = 0` and `delta = inf` (model.py lines 378-379). -/
def gls_loop_count (iterate : Bool) (iter_limit : ℕ) (tol : ℚ)
    (deltas : ℕ → ℚ) : ℕ :=
  gls_loop_count_aux iterate iter_limit tol deltas (iter_limit + 2) 0 none

theorem gls_loop_count_aux_le_counter (iterate : Bool) (iter_limit : ℕ)
    (tol : ℚ) (deltas : ℕ → ℚ) :
    ∀ fuel c d, c ≤ gls_loop_count_aux iterate iter_limit tol deltas fuel c d := by
  intro fuel
  induction fuel with
  | zero => intro c d; exact le_refl c
  | succ f ih =>
      intro c d
      rw [gls_loop_count_aux]
      by_cases h : gls_loop_cond iterate iter_limit tol c d = true
      · rw [if_pos h]
        exact le_trans (Nat.le_succ c) (ih (c + 1) (some (deltas c)))
      · rw [if_neg h]

theorem gls_loop_count_aux_first_delta (iterate : Bool) (iter_limit : ℕ)
    (tol : ℚ) (deltas : ℕ → ℚ) :
    ∀ fuel c d, c + 1 ≤ gls_loop_count_aux iterate iter_limit tol deltas fuel c d →
      gls_delta_ge d tol = true := by
  intro fuel
  induction fuel with
  | zero => intro c d h; simp only [gls_loop_count_aux] at h; omega
  | succ f _ =>
      intro c d h
      rw [gls_loop_count_aux] at h
      by_cases hc : gls_loop_cond iterate iter_limit tol c d = true
      · rw [gls_loop_cond, Bool.and_eq_true] at hc
        exact hc.2
      · rw [if_neg hc] at h; omega

theorem gls_loop_count_aux_deltas_ge (iterate : Bool) (iter_limit : ℕ)
    (tol : ℚ) (deltas : ℕ → ℚ) :
    ∀ fuel c d t, c ≤ t →
      t + 2 ≤ gls_loop_count_aux iterate iter_limit tol deltas fuel c d →
      tol ≤ deltas t := by
  intro fuel
  induction fuel with
  | zero => intro c d t hct h; simp only [gls_loop_count_aux] at h; omega
  | succ f ih =>
      intro c d t hct h
      rw [gls_loop_count_aux] at h
      by_cases hc : gls_loop_cond iterate iter_limit tol c d = true
      · rw [if_pos hc] at h
        rcases Nat.lt_or_ge c t with hlt | hge
        · exact ih (c + 1) (some (deltas c)) t hlt h
        · have hct2 : c = t := le_antisymm hct hge
          subst hct2
          have hfirst := gls_loop_count_aux_first_delta iterate iter_limit tol deltas
            f (c + 1) (some (deltas c)) (by omega)
          rw [gls_delta_ge] at hfirst
          exact of_decide_eq_true hfirst
      · rw [if_neg hc] at h; omega

theorem gls_loop_count_aux_bounded (iterate : Bool) (iter_limit : ℕ)
    (tol : ℚ) (deltas : ℕ → ℚ) :
    ∀ fuel c d, 1 ≤ c →
      gls_loop_count_aux iterate iter_limit tol deltas fuel c d ≤ max c iter_limit := by
  intro fuel
  induction fuel with
  | zero => intro c d _; rw [gls_loop_count_aux]; exact le_max_left c iter_limit
  | succ f ih =>
      intro c d hc
      rw [gls_loop_count_aux]
      by_cases h : gls_loop_cond iterate iter_limit tol c d = true
      · rw [if_pos h]
        have hlt : c < iter_limit := by
          rw [gls_loop_cond, Bool.and_eq_true, Bool.or_eq_true, Bool.and_eq_true] at h
          rcases h.1 with h1 | h1
          · exact of_decide_eq_true h1.1
          · have : c = 0 := by simpa using h1
            omega
        calc gls_loop_count_aux iterate iter_limit tol deltas f (c + 1) (some (deltas c)) ≤
              max (c + 1) iter_limit := ih (c + 1) (some (deltas c)) (by omega)
          _ ≤ max c iter_limit := by omega
      · rw [if_neg h]
        exact le_max_left c iter_limit

/-- Claim C5 (amended: the upper bound is `max 1 iter_limit`, because the
loop always executes its first pass even when `iter_limit = 0`; see the
counterexample): the GLS loop runs at least one iteration, exactly one when
`iterate=False`, at most `max 1 iter_limit` when iterating, continues only
while the root-mean-square parameter change stays at or above `tol` (so it
terminates early as soon as the metric drops below `tol`), and the fit
defaults are `tol=1e-6`, `iter_limit=100`. -/
theorem gls_loop_iteration_bounds (iterate : Bool) (iter_limit : ℕ) (tol : ℚ)
    (deltas : ℕ → ℚ) :
    fit_tol_default = 1 / 1000000 ∧ fit_iter_limit_default = 100 ∧
    1 ≤ gls_loop_count iterate iter_limit tol deltas ∧
    (iterate = false → gls_loop_count iterate iter_limit tol deltas = 1) ∧
    gls_loop_count iterate iter_limit tol deltas ≤ max 1 iter_limit ∧
    (∀ t, t + 2 ≤ gls_loop_count iterate iter_limit tol deltas → tol ≤ deltas t) := by
  have hstep : gls_loop_count iterate iter_limit tol deltas =
      gls_loop_count_aux iterate iter_limit tol deltas (iter_limit + 1) 1 (some (deltas 0)) := by
    rw [gls_loop_count, gls_loop_count_aux, if_pos]
    rw [gls_loop_cond]
    simp [gls_delta_ge]
  refine ⟨rfl, rfl, ?_, ?_, ?_, ?_⟩
  · rw [hstep]
    exact gls_loop_count_aux_le_counter iterate iter_limit tol deltas _ 1 _
  · intro hit
    subst hit
    rw [hstep, gls_loop_count_aux, if_neg]
    rw [gls_loop_cond]
    simp
  · rw [hstep]
    have := gls_loop_count_aux_bounded iterate iter_limit tol deltas
      (iter_limit + 1) 1 (some (deltas 0)) (le_refl 1)
    omega
  · intro t ht
    rw [hstep] at ht
    rcases Nat.eq_zero_or_pos t with ht0 | htpos
    · subst ht0
      have hfirst := gls_loop_count_aux_first_delta iterate iter_limit tol deltas
        (iter_limit + 1) 1 (some (deltas 0)) (by omega)
      rw [gls_delta_ge] at hfirst
      exact of_decide_eq_true hfirst
    · exact gls_loop_count_aux_deltas_ge iterate iter_limit tol deltas
        (iter_limit + 1) 1 (some (deltas 0)) t htpos ht

/-- Claim C5 witness: at `iterate=False` with the default limits the loop
runs exactly once. -/
theorem gls_loop_iteration_bounds_witness :
    gls_loop_count false 100 (1 / 1000000) (fun _ => 0) = 1 :=
  (gls_loop_iteration_bounds false 100 (1 / 1000000) (fun _ => 0)).2.2.2.1 rfl

/-- Claim C5 counterexample: with `iterate=True` and `iter_limit=0` the
loop still runs once, exceeding the claimed bound of `iter_limit`
iterations. -/
theorem gls_loop_exceeds_zero_iter_limit :
    ¬ gls_loop_count true 0 1 (fun _ => 1) ≤ 0 := by decide

/-! ### System GMM (`IVSystemGMM`, model.py lines 1102-1361) -/

/-- Default `iter_limit` of `IVSystemGMM.fit` (model.py line 1187). -/
def gmm_iter_limit_default : ℕ := 2

/-- The block-diagonal `XᵀZ` matrix built by the loops on model.py
lines 1253-1259 and 1303-1309: block `(i, i)` is `x[i].T @ z[i]`, all
off-diagonal blocks stay zero. -/
def gmm_xpz {k n : ℕ} {p qd : Fin k → ℕ}
    (x : ∀ i, Matrix (Fin n) (Fin (p i)) ℚ)
    (z : ∀ i, Matrix (Fin n) (Fin (qd i)) ℚ) : Matrix (BIdx p) (BIdx qd) ℚ :=
  Matrix.of fun a b => if a.1 = b.1 then ∑ r, x a.1 r a.2 * z b.1 r b.2 else 0

/-- Embeds `IVSystemGMM._blocked_gmm` (model.py lines 1298-1318):
`β = (XᵀZ W⁻¹ ZᵀX)⁻¹ XᵀZ W⁻¹ ZᵀY` with the blocked `XᵀZ` above and the
stacked `ZᵀY`. -/
def blocked_gmm {k n : ℕ} {p qd : Fin k → ℕ}
    (x : ∀ i, Matrix (Fin n) (Fin (p i)) ℚ)
    (y : Fin k → Matrix (Fin n) (Fin 1) ℚ)
    (z : ∀ i, Matrix (Fin n) (Fin (qd i)) ℚ)
    (w : Matrix (BIdx qd) (BIdx qd) ℚ) : Matrix (BIdx p) (Fin 1) ℚ :=
  let xpz := gmm_xpz x z
  let wi := minv w
  let zpy : Matrix (BIdx qd) (Fin 1) ℚ :=
    Matrix.of fun b c => ∑ r, z b.1 r b.2 * y b.1 r c
  msolve (xpz * wi * Matrix.transpose xpz) (xpz * wi * zpy)

/-- Per-equation residuals recomputed from a stacked `β` (the loops on
model.py lines 1233-1239 and 1265-1272): `eps[i] = y[i] - x[i] @ β_i`. -/
def gmm_eps {k n : ℕ} {p : Fin k → ℕ}
    (x : ∀ i, Matrix (Fin n) (Fin (p i)) ℚ)
    (y : Fin k → Matrix (Fin n) (Fin 1) ℚ)
    (beta : Matrix (BIdx p) (Fin 1) ℚ) : Fin k → Matrix (Fin n) (Fin 1) ℚ :=
  fun i => Matrix.of fun r c => y i r c - ∑ a, x i r a * beta ⟨i, a⟩ c

/-- The mutable state of the GMM iteration loop (model.py
lines 1231-1273). -/
structure GmmState (k n : ℕ) (p qd : Fin k → ℕ) where
  beta_last : Matrix (BIdx p) (Fin 1) ℚ
  beta : Matrix (BIdx p) (Fin 1) ℚ
  eps : Fin k → Matrix (Fin n) (Fin 1) ℚ
  vinv : Option (Matrix (BIdx p) (BIdx p) ℚ)
  norm : ℚ
  iters : ℕ

/-- One pass of the GMM `while` loop body (model.py lines 1245-1273).
`wm` models the weight-matrix collaborator
(`self._weight_est.sigma` composed with `.weight_matrix`, from
`linearmodels.system.gmm`, not in src/) as a function of the current
residuals.  `vinv` is computed once, on the first pass, from the current
weight matrix; the norm is the GMM quadratic form `δᵀ·V⁻¹·δ`. -/
def gmm_step {k n : ℕ} {p qd : Fin k → ℕ}
    (wm : (Fin k → Matrix (Fin n) (Fin 1) ℚ) → Matrix (BIdx qd) (BIdx qd) ℚ)
    (x : ∀ i, Matrix (Fin n) (Fin (p i)) ℚ)
    (y : Fin k → Matrix (Fin n) (Fin 1) ℚ)
    (z : ∀ i, Matrix (Fin n) (Fin (qd i)) ℚ)
    (s : GmmState k n p qd) : GmmState k n p qd :=
  let w := wm s.eps
  let beta := blocked_gmm x y z w
  let delta := s.beta_last - beta
  let vinv := match s.vinv with
    | some v => v
    | none => minv ((n : ℚ)⁻¹ • (gmm_xpz x z * minv w * Matrix.transpose (gmm_xpz x z)))
  { beta_last := beta
    beta := beta
    eps := gmm_eps x y beta
    vinv := some vinv
    norm := (Matrix.transpose delta * vinv * delta) 0 0
    iters := s.iters + 1 }

/-- The GMM `while` loop (model.py line 1244):
`while iters < iter_limit and norm > tol`.  The fuel argument only rules
out divergence; `iter_limit` passes always suffice because `iters` starts
at 1 and increases by one per pass. -/
def gmm_loop {k n : ℕ} {p qd : Fin k → ℕ}
    (wm : (Fin k → Matrix (Fin n) (Fin 1) ℚ) → Matrix (BIdx qd) (BIdx qd) ℚ)
    (x : ∀ i, Matrix (Fin n) (Fin (p i)) ℚ)
    (y : Fin k → Matrix (Fin n) (Fin 1) ℚ)
    (z : ∀ i, Matrix (Fin n) (Fin (qd i)) ℚ)
    (iter_limit : ℕ) (tol : ℚ) : ℕ → GmmState k n p qd → GmmState k n p qd
  | 0, s => s
  | fuel + 1, s =>
      if s.iters < iter_limit ∧ tol < s.norm then
        gmm_loop wm x y z iter_limit tol fuel (gmm_step wm x y z s)
      else s

/-- The default first-step weight matrix (model.py lines 1227-1229):
`blocked_inner_prod(wz, eye(k_total)) / nobs`; only the leading `k × k`
corner of `eye(k_total)` is read, so the weighting matrix is `eye(k)`. -/
def gmm_initial_weight {k n : ℕ} {qd : Fin k → ℕ}
    (z : ∀ i, Matrix (Fin n) (Fin (qd i)) ℚ)
    (initial : Option (Matrix (BIdx qd) (BIdx qd) ℚ)) :
    Matrix (BIdx qd) (BIdx qd) ℚ :=
  match initial with
  | some w0 => w0
  | none => (n : ℚ)⁻¹ • blocked_inner_prod z (1 : Matrix (Fin k) (Fin k) ℚ)

/-- Embeds `IVSystemGMM.fit` up to the end of the iteration loop (model.py
lines 1222-1273): the one-step solve with the initial weight, then the
re-weighted iterations.  `iters` starts at 1 and `norm` at
`10 * tol + 1`. -/
def gmm_fit_state {k n : ℕ} {p qd : Fin k → ℕ}
    (wm : (Fin k → Matrix (Fin n) (Fin 1) ℚ) → Matrix (BIdx qd) (BIdx qd) ℚ)
    (x : ∀ i, Matrix (Fin n) (Fin (p i)) ℚ)
    (y : Fin k → Matrix (Fin n) (Fin 1) ℚ)
    (z : ∀ i, Matrix (Fin n) (Fin (qd i)) ℚ)
    (initial : Option (Matrix (BIdx qd) (BIdx qd) ℚ))
    (iter_limit : ℕ) (tol : ℚ) : GmmState k n p qd :=
  let w0 := gmm_initial_weight z initial
  let beta0 := blocked_gmm x y z w0
  gmm_loop wm x y z iter_limit tol iter_limit
    { beta_last := beta0
      beta := beta0
      eps := gmm_eps x y beta0
      vinv := none
      norm := 10 * tol + 1
      iters := 1 }

/-- The parameter vector `IVSystemGMM.fit` hands to `_finalize_results`.
The `cons` argument models `self._constraints`: the source never reads it
on the GMM path (the `TODO` on model.py line 1275 concedes as much), which
this definition makes literal. -/
def gmm_fit_beta {k n m f : ℕ} {p qd : Fin k → ℕ}
    (cons : Option (LinearConstraintM (BIdx p) m f))
    (wm : (Fin k → Matrix (Fin n) (Fin 1) ℚ) → Matrix (BIdx qd) (BIdx qd) ℚ)
    (x : ∀ i, Matrix (Fin n) (Fin (p i)) ℚ)
    (y : Fin k → Matrix (Fin n) (Fin 1) ℚ)
    (z : ∀ i, Matrix (Fin n) (Fin (qd i)) ℚ)
    (initial : Option (Matrix (BIdx qd) (BIdx qd) ℚ))
    (iter_limit : ℕ) (tol : ℚ) : Matrix (BIdx p) (Fin 1) ℚ :=
  (gmm_fit_state wm x y z initial iter_limit tol).beta

/-- The `iter_count` reported by `IVSystemGMM.fit`: the loop counter plus
the stray second `iters += 1` on model.py line 1293, executed after the
loop on the way to `_finalize_results`. -/
def gmm_fit_iter_count {k n : ℕ} {p qd : Fin k → ℕ}
    (wm : (Fin k → Matrix (Fin n) (Fin 1) ℚ) → Matrix (BIdx qd) (BIdx qd) ℚ)
    (x : ∀ i, Matrix (Fin n) (Fin (p i)) ℚ)
    (y : Fin k → Matrix (Fin n) (Fin 1) ℚ)
    (z : ∀ i, Matrix (Fin n) (Fin (qd i)) ℚ)
    (initial : Option (Matrix (BIdx qd) (BIdx qd) ℚ))
    (iter_limit : ℕ) (tol : ℚ) : ℕ :=
  (gmm_fit_state wm x y z initial iter_limit tol).iters + 1

/-- The method label chosen by `IVSystemGMM._finalize_results`
(model.py lines 1327-1329). -/
def gmm_method_label (iter_count : ℕ) : String :=
  if 2 < iter_count then "Iterative GMM" else toString iter_count ++ "-Step GMM"

theorem gmm_loop_succ {k n : ℕ} {p qd : Fin k → ℕ}
    (wm : (Fin k → Matrix (Fin n) (Fin 1) ℚ) → Matrix (BIdx qd) (BIdx qd) ℚ)
    (x : ∀ i, Matrix (Fin n) (Fin (p i)) ℚ)
    (y : Fin k → Matrix (Fin n) (Fin 1) ℚ)
    (z : ∀ i, Matrix (Fin n) (Fin (qd i)) ℚ)
    (iter_limit : ℕ) (tol : ℚ) (fuel : ℕ) (s : GmmState k n p qd) :
    gmm_loop wm x y z iter_limit tol (fuel + 1) s =
      if s.iters < iter_limit ∧ tol < s.norm then
        gmm_loop wm x y z iter_limit tol fuel (gmm_step wm x y z s)
      else s := rfl

theorem gmm_loop_iters_limit_two {k n : ℕ} {p qd : Fin k → ℕ}
    (wm : (Fin k → Matrix (Fin n) (Fin 1) ℚ) → Matrix (BIdx qd) (BIdx qd) ℚ)
    (x : ∀ i, Matrix (Fin n) (Fin (p i)) ℚ)
    (y : Fin k → Matrix (Fin n) (Fin 1) ℚ)
    (z : ∀ i, Matrix (Fin n) (Fin (qd i)) ℚ)
    (tol : ℚ) (s : GmmState k n p qd)
    (h1 : s.iters = 1) (hn : tol < s.norm) :
    (gmm_loop wm x y z 2 tol 2 s).iters = 2 := by
  have hs : (gmm_step wm x y z s).iters = s.iters + 1 := rfl
  have e1 : gmm_loop wm x y z 2 tol 2 s =
      if s.iters < 2 ∧ tol < s.norm then
        gmm_loop wm x y z 2 tol 1 (gmm_step wm x y z s)
      else s := rfl
  have e2 : gmm_loop wm x y z 2 tol 1 (gmm_step wm x y z s) =
      if (gmm_step wm x y z s).iters < 2 ∧ tol < (gmm_step wm x y z s).norm then
        gmm_loop wm x y z 2 tol 0 (gmm_step wm x y z (gmm_step wm x y z s))
      else gmm_step wm x y z s := rfl
  rw [e1, if_pos ⟨by omega, hn⟩, e2, if_neg]
  · rw [hs, h1]
  · intro hcontra
    rw [hs, h1] at hcontra
    exact absurd hcontra.1 (by omega)

/-- Claim C2 (the code mislabels the default fit): with the default
`iter_limit=2` the re-weighting loop body runs exactly once — a two-step
estimation — but the stray second `iters += 1` on model.py line 1293
makes the reported `iter_count` equal 3, so `_finalize_results` labels the
result "Iterative GMM" instead of "2-Step GMM".  The final conjunct
confirms the half of the claim the code does satisfy: the "Iterative GMM"
label is applied exactly when the reported count exceeds 2. -/
theorem gmm_default_iter_limit_mislabeled {k n : ℕ} {p qd : Fin k → ℕ}
    (wm : (Fin k → Matrix (Fin n) (Fin 1) ℚ) → Matrix (BIdx qd) (BIdx qd) ℚ)
    (x : ∀ i, Matrix (Fin n) (Fin (p i)) ℚ)
    (y : Fin k → Matrix (Fin n) (Fin 1) ℚ)
    (z : ∀ i, Matrix (Fin n) (Fin (qd i)) ℚ)
    (initial : Option (Matrix (BIdx qd) (BIdx qd) ℚ))
    (tol : ℚ) (htol : 0 < tol) :
    gmm_iter_limit_default = 2 ∧
    gmm_fit_iter_count wm x y z initial 2 tol = 3 ∧
    gmm_method_label (gmm_fit_iter_count wm x y z initial 2 tol) = "Iterative GMM" ∧
    gmm_method_label 2 = "2-Step GMM" ∧
    (∀ c, gmm_method_label c = "Iterative GMM" ↔ 2 < c) := by
  have hcount : gmm_fit_iter_count wm x y z initial 2 tol = 3 := by
    have hn : tol < (10 : ℚ) * tol + 1 := by linarith
    simp only [gmm_fit_iter_count, gmm_fit_state]
    rw [gmm_loop_iters_limit_two]
    · rfl
    · exact hn
  refine ⟨rfl, hcount, ?_, rfl, ?_⟩
  · rw [hcount]
    rfl
  · intro c
    constructor
    · intro h
      by_contra hc
      push_neg at hc
      rw [gmm_method_label, if_neg (by omega)] at h
      interval_cases c <;> revert h <;> decide
    · intro h
      rw [gmm_method_label, if_pos h]

/-! ### A concrete one-equation GMM system with a constraint attached
(claim C1 counterexample, claim C2 witness) -/

instance : Unique ((i : Fin 1) × Fin 1) :=
  ⟨⟨⟨0, 0⟩⟩, by intro x; rcases x with ⟨i, a⟩; fin_cases i; fin_cases a; rfl⟩

theorem mul_apply_unique {ι μ κ : Type} [Fintype κ] [Unique κ]
    (A : Matrix ι κ ℚ) (B : Matrix κ μ ℚ) (i : ι) (j : μ) :
    (A * B) i j = A i default * B default j := by
  rw [Matrix.mul_apply]
  exact Fintype.sum_unique _

theorem minv_apply_unique {ι : Type} [Fintype ι] [Unique ι] [DecidableEq ι]
    (A : Matrix ι ι ℚ) (i j : ι) : minv A i j = (A default default)⁻¹ := by
  rw [minv, Matrix.adjugate_subsingleton]
  have hij : i = j := Subsingleton.elim i j
  subst hij
  rw [Matrix.smul_apply, Matrix.one_apply_eq, Matrix.det_unique, smul_eq_mul, mul_one]

/-- Column count of the single equation of the concrete system. -/
abbrev cx_p : Fin 1 → ℕ := fun _ => 1

/-- Regressor-equals-instrument block of the concrete system:
`x = z = (1, 1)ᵀ`. -/
def cx_x : ∀ i : Fin 1, Matrix (Fin 2) (Fin (cx_p i)) ℚ :=
  fun _ => Matrix.of fun _ _ => 1

/-- Dependent block of the concrete system: `y = (1, 3)ᵀ`. -/
def cx_y : Fin 1 → Matrix (Fin 2) (Fin 1) ℚ :=
  fun _ => Matrix.of fun r _ => if r = 0 then 1 else 3

/-- Stand-in for the weight-matrix collaborator; the counterexample runs
`fit(iter_limit=1)`, whose loop body never executes, so this function is
never applied. -/
def cx_wm : (Fin 1 → Matrix (Fin 2) (Fin 1) ℚ) → Matrix (BIdx cx_p) (BIdx cx_p) ℚ :=
  fun _ => 1

/-- The valid constraint `R = [1]`, `q = [0]` on the single parameter:
`R` has full row rank and one column per parameter, and its transform pair
is `T` the empty basis and `a = 0`. -/
def cx_cons : LinearConstraintM (BIdx cx_p) 1 0 where
  r := Matrix.of fun _ _ => 1
  q := 0
  t := 0
  a := 0
  rt_eq := Matrix.mul_zero _
  ra_eq := by rw [Matrix.transpose_zero, Matrix.mul_zero]

theorem cx_one_step_beta :
    gmm_fit_beta (some cx_cons) cx_wm cx_x cx_y cx_x none 1 (1 / 1000000) =
      Matrix.of fun _ _ => 2 := by
  have hskip : gmm_fit_beta (some cx_cons) cx_wm cx_x cx_y cx_x none 1 (1 / 1000000) =
      blocked_gmm cx_x cx_y cx_x (gmm_initial_weight cx_x none) := by
    rw [gmm_fit_beta, gmm_fit_state]
    have e : ∀ s : GmmState 1 2 cx_p cx_p,
        gmm_loop cx_wm cx_x cx_y cx_x 1 (1 / 1000000) 1 s =
          if s.iters < 1 ∧ (1 / 1000000 : ℚ) < s.norm then
            gmm_loop cx_wm cx_x cx_y cx_x 1 (1 / 1000000) 0 (gmm_step cx_wm cx_x cx_y cx_x s)
          else s := fun s => rfl
    rw [e, if_neg]
    intro hcontra
    exact Nat.lt_irrefl 1 hcontra.1
  rw [hskip]
  have hxpz : ∀ a b : BIdx cx_p, gmm_xpz cx_x cx_x a b = 2 := by
    intro a b
    have ha : a = default := Subsingleton.elim a default
    have hb : b = default := Subsingleton.elim b default
    subst ha
    subst hb
    simp [gmm_xpz, cx_x, Fin.sum_univ_two]
  have hw0 : gmm_initial_weight cx_x (none : Option (Matrix (BIdx cx_p) (BIdx cx_p) ℚ))
      default default = 1 := by
    rw [gmm_initial_weight, Matrix.smul_apply]
    rw [show blocked_inner_prod cx_x (1 : Matrix (Fin 1) (Fin 1) ℚ) default default =
      (1 : Matrix (Fin 1) (Fin 1) ℚ) 0 0 * ∑ r : Fin 2, cx_x 0 r 0 * cx_x 0 r 0 from rfl]
    simp [cx_x, Fin.sum_univ_two, Matrix.one_apply]
  have hzpy : ∀ c : Fin 1, (Matrix.of fun (b : BIdx cx_p) c =>
      ∑ r, cx_x b.1 r b.2 * cx_y b.1 r c : Matrix (BIdx cx_p) (Fin 1) ℚ) default c = 4 := by
    intro c
    simp [cx_x, cx_y, Fin.sum_univ_two]
    norm_num
  ext u c
  rw [show blocked_gmm cx_x cx_y cx_x (gmm_initial_weight cx_x none) =
    msolve (gmm_xpz cx_x cx_x * minv (gmm_initial_weight cx_x none) *
        Matrix.transpose (gmm_xpz cx_x cx_x))
      (gmm_xpz cx_x cx_x * minv (gmm_initial_weight cx_x none) *
        (Matrix.of fun (b : BIdx cx_p) c => ∑ r, cx_x b.1 r b.2 * cx_y b.1 r c)) from rfl]
  rw [msolve, mul_apply_unique, minv_apply_unique]
  rw [mul_apply_unique, mul_apply_unique, mul_apply_unique, mul_apply_unique]
  rw [Matrix.transpose_apply, minv_apply_unique, hw0, hxpz, hzpy]
  norm_num

/-- Claim C1 counterexample: a valid one-row constraint `R = [1]`,
`q = [0]` (full row rank, one column per parameter) is attached to a
one-equation `IVSystemGMM` system with `y = (1, 3)ᵀ` and `x = z = (1, 1)ᵀ`;
`IVSystemGMM.fit` never reads the constraint, its one-step GMM solve
returns `β = [2]`, and `R·β = [2] ≠ [0] = q`. -/
theorem gmm_fit_violates_constraint :
    gmm_fit_beta (some cx_cons) cx_wm cx_x cx_y cx_x none 1 (1 / 1000000) =
      (Matrix.of fun _ _ => 2) ∧
    cx_cons.r * gmm_fit_beta (some cx_cons) cx_wm cx_x cx_y cx_x none 1 (1 / 1000000) ≠
      cx_cons.q := by
  refine ⟨cx_one_step_beta, ?_⟩
  intro hcontra
  have h00 := congrFun (congrFun hcontra 0) 0
  rw [cx_one_step_beta] at h00
  rw [mul_apply_unique] at h00
  have hr : cx_cons.r 0 default = 1 := rfl
  have hq : cx_cons.q 0 0 = 0 := rfl
  rw [hr, hq] at h00
  norm_num at h00

/-- Claim C2 witness: on the concrete one-equation system, the default
`iter_limit=2` fit reports `iter_count = 3` and carries the
"Iterative GMM" label. -/
theorem gmm_default_iter_limit_mislabeled_witness :
    gmm_fit_iter_count cx_wm cx_x cx_y cx_x none 2 (1 / 1000000) = 3 ∧
    gmm_method_label 3 = "Iterative GMM" := by
  have h := gmm_default_iter_limit_mislabeled cx_wm cx_x cx_y cx_x none
    (1 / 1000000) (by norm_num)
  exact ⟨h.2.1, h.2.1 ▸ h.2.2.1⟩

/-! ### Missing-data alignment (`IV3SLS._drop_missing`, model.py
lines 290-309) -/

/-- One field of one equation as a labeled matrix: representative column
values plus the per-row missingness mask of the collaborator abstraction. -/
structure FieldData (n : ℕ) where
  vals : Fin n → ℚ
  isnull : Fin n → Bool

/-- The five fields of one equation that contribute to the missing mask. -/
structure EquationData (n : ℕ) where
  dependent : FieldData n
  exog : FieldData n
  endog : FieldData n
  instruments : FieldData n
  weights : FieldData n

/-- The accumulated mask of model.py lines 293-300: the logical OR, over
all equations, of the per-row missingness of the five fields. -/
def missing_mask {n k : ℕ} (eqs : Fin k → EquationData n) : Fin n → Bool :=
  fun r => (List.finRange k).any fun i =>
    (eqs i).dependent.isnull r || (eqs i).exog.isnull r || (eqs i).endog.isnull r ||
      (eqs i).instruments.isnull r || (eqs i).weights.isnull r

/-- Number of rows flagged by a mask. -/
def drop_count {n : ℕ} (mask : Fin n → Bool) : ℕ :=
  ((List.finRange n).filter (fun r => mask r)).length

/-- Modelled from the spec: `missing_warning` from `linearmodels.utility`
(not in src/), called on model.py line 302: when any row is flagged it
emits exactly one non-fatal diagnostic naming the dropped-row count; the
returned list is the channel of emitted diagnostics. -/
def missing_warning {n : ℕ} (mask : Fin n → Bool) : List ℕ :=
  if (List.finRange n).any mask then [drop_count mask] else []

/-- The `drop` operation of the labeled-matrix collaborator applied with
the shared mask (model.py lines 303-309): the rows kept are exactly those
the mask does not flag, in order. -/
def drop_rows {n : ℕ} (mask : Fin n → Bool) (f : FieldData n) : List ℚ :=
  ((List.finRange n).filter (fun r => !(mask r))).map f.vals

/-- Post-drop observation counts of the five fields of one equation. -/
def post_drop_lengths {n : ℕ} (mask : Fin n → Bool) (e : EquationData n) : List ℕ :=
  [(drop_rows mask e.dependent).length, (drop_rows mask e.exog).length,
    (drop_rows mask e.endog).length, (drop_rows mask e.instruments).length,
    (drop_rows mask e.weights).length]

theorem length_filter_not_add {α : Type} (l : List α) (p : α → Bool) :
    (l.filter (fun a => !(p a))).length + (l.filter p).length = l.length := by
  induction l with
  | nil => rfl
  | cons a l ih =>
      by_cases h : p a = true
      · simp [List.filter, h, ← ih]
        omega
      · have h2 : p a = false := by
          cases hpa : p a
          · rfl
          · exact absurd hpa h
        simp [List.filter, h2, ← ih]
        omega

theorem drop_rows_length {n : ℕ} (mask : Fin n → Bool) (f : FieldData n) :
    (drop_rows mask f).length = n - drop_count mask := by
  rw [drop_rows, drop_count, List.length_map]
  have := length_filter_not_add (List.finRange n) (fun r => mask r)
  rw [List.length_finRange] at this
  omega

/-- Claim C7: the drop mask is the logical OR over all equations of each
missingness of each field; when any row is flagged, exactly one non-fatal
diagnostic is emitted and it names the dropped-row count; and the same
mask is applied to every field of every equation, so all equations share
an identical post-drop observation count `n - dropped`. -/
theorem drop_missing_alignment {n k : ℕ} (eqs : Fin k → EquationData n)
    (hmiss : ∃ r, missing_mask eqs r = true) :
    (∀ r, missing_mask eqs r = true ↔ ∃ i,
      ((eqs i).dependent.isnull r = true ∨ (eqs i).exog.isnull r = true ∨
        (eqs i).endog.isnull r = true ∨ (eqs i).instruments.isnull r = true ∨
        (eqs i).weights.isnull r = true)) ∧
    missing_warning (missing_mask eqs) = [drop_count (missing_mask eqs)] ∧
    (missing_warning (missing_mask eqs)).length = 1 ∧
    (∀ i, post_drop_lengths (missing_mask eqs) (eqs i) =
      List.replicate 5 (n - drop_count (missing_mask eqs))) := by
  have hchar : ∀ r, missing_mask eqs r = true ↔ ∃ i,
      ((eqs i).dependent.isnull r = true ∨ (eqs i).exog.isnull r = true ∨
        (eqs i).endog.isnull r = true ∨ (eqs i).instruments.isnull r = true ∨
        (eqs i).weights.isnull r = true) := by
    intro r
    rw [missing_mask, List.any_eq_true]
    constructor
    · rintro ⟨i, _, hi⟩
      refine ⟨i, ?_⟩
      simpa [Bool.or_eq_true, or_assoc] using hi
    · rintro ⟨i, hi⟩
      refine ⟨i, List.mem_finRange i, ?_⟩
      simpa [Bool.or_eq_true, or_assoc] using hi
  have hwarn : missing_warning (missing_mask eqs) = [drop_count (missing_mask eqs)] := by
    rw [missing_warning, if_pos]
    rw [List.any_eq_true]
    obtain ⟨r, hr⟩ := hmiss
    exact ⟨r, List.mem_finRange r, hr⟩
  refine ⟨hchar, hwarn, by rw [hwarn]; rfl, ?_⟩
  intro i
  rw [post_drop_lengths]
  simp only [drop_rows_length]
  rfl

/-- Claim C7 witness data: two equations over three rows; the second row
of the exogenous block of the first equation is missing. -/
def cx7_eqs : Fin 2 → EquationData 3 :=
  fun i =>
    { dependent := { vals := fun _ => 1, isnull := fun _ => false }
      exog := { vals := fun r => (r : ℚ), isnull := fun r => i = 0 && r = 1 }
      endog := { vals := fun _ => 0, isnull := fun _ => false }
      instruments := { vals := fun _ => 0, isnull := fun _ => false }
      weights := { vals := fun _ => 1, isnull := fun _ => false } }

/-- Claim C7 witness: on the concrete two-equation system exactly one
diagnostic naming one dropped row is emitted, and every field of both
equations keeps two rows. -/
theorem drop_missing_alignment_witness :
    missing_warning (missing_mask cx7_eqs) = [1] ∧
    (∀ i, post_drop_lengths (missing_mask cx7_eqs) (cx7_eqs i) = [2, 2, 2, 2, 2]) := by
  have h := drop_missing_alignment cx7_eqs ⟨1, by decide⟩
  have hcount : drop_count (missing_mask cx7_eqs) = 1 := by decide
  constructor
  · rw [h.2.1, hcount]
  · intro i
    rw [h.2.2.2 i, hcount]
    rfl

/-! ### Per-equation F-statistics (`IV3SLS._f_stat`, model.py
lines 687-714) -/

/-- The result payload of `_f_stat`: either a Wald statistic or — modelled
from the spec — the `InvalidTestStatistic` marker of
`linearmodels.utility` (not in src/), which carries a human-readable
reason in place of a number. -/
inductive FStatResult where
  | wald (stat : ℚ) (df : ℕ) (df_denom : Option ℕ) (null : String) (name : String)
  | invalid (reason : String) (name : String)
deriving DecidableEq

/-- Models the `numpy.linalg.inv` contract: it raises `LinAlgError` on a
singular matrix, embedded as `Except` so that the `try/except` on
model.py lines 699-704 becomes a `match`. -/
def np_inv {ι : Type} [Fintype ι] [DecidableEq ι] (A : Matrix ι ι ℚ) :
    Except String (Matrix ι ι ℚ) :=
  if A.det = 0 then Except.error "Singular matrix" else Except.ok (minv A)

/-- The index selection of model.py lines 690-692: all coefficients, with
the position of the constant removed when the equation has one. -/
def f_stat_selection (kk : ℕ) (hasConst : Bool) (constLoc : ℕ) : List (Fin kk) :=
  if hasConst then (List.finRange kk).filter (fun i => !((i : ℕ) == constLoc))
  else List.finRange kk

/-- The non-constant covariance submatrix `cov[sel][:, sel]`
(model.py line 693). -/
def f_stat_sel_cov {kk : ℕ} (cov : Matrix (Fin kk) (Fin kk) ℚ)
    (hasConst : Bool) (constLoc : ℕ) :
    Matrix (Fin (f_stat_selection kk hasConst constLoc).length)
      (Fin (f_stat_selection kk hasConst constLoc).length) ℚ :=
  Matrix.of fun i j =>
    cov ((f_stat_selection kk hasConst constLoc).get i)
      ((f_stat_selection kk hasConst constLoc).get j)

/-- Embeds `IV3SLS._f_stat` (model.py lines 687-714): the quadratic form
`paramsᵀ · inv(cov) · params` over the non-constant coefficients, rescaled
to an F-statistic when `debiased`; a singular covariance submatrix yields
the explicit invalid-statistic marker instead of raising. -/
def f_stat {kk : ℕ} (params : Matrix (Fin kk) (Fin 1) ℚ)
    (cov : Matrix (Fin kk) (Fin kk) ℚ) (hasConst : Bool) (constLoc : ℕ)
    (debiased : Bool) (k_eqs nobs total_reg : ℕ) : FStatResult :=
  let sel := f_stat_selection kk hasConst constLoc
  let pS : Fin sel.length → ℚ := fun i => params (sel.get i) 0
  match np_inv (f_stat_sel_cov cov hasConst constLoc) with
  | Except.error _ =>
      FStatResult.invalid "Covariance is singular, possibly due to constraints."
        "Equation F-statistic"
  | Except.ok ci =>
      let stat := ∑ i, ∑ j, pS i * ci i j * pS j
      if debiased then
        FStatResult.wald (stat / (sel.length : ℚ)) sel.length
          (some (k_eqs * nobs - total_reg)) "All parameters ex. constant are zero"
          "Equation F-statistic"
      else
        FStatResult.wald stat sel.length none "All parameters ex. constant are zero"
          "Equation F-statistic"

/-- The per-equation inputs `_common_indiv_results` extracts before calling
`_f_stat` (model.py lines 736-759). -/
structure EqFStatIn where
  kk : ℕ
  params : Matrix (Fin kk) (Fin 1) ℚ
  cov : Matrix (Fin kk) (Fin kk) ℚ
  hasConst : Bool
  constLoc : ℕ

/-- The F-statistic of the payload of one equation. -/
def eq_f_stat (debiased : Bool) (k_eqs nobs total_reg : ℕ) (e : EqFStatIn) : FStatResult :=
  f_stat e.params e.cov e.hasConst e.constLoc debiased k_eqs nobs total_reg

/-- The per-equation loop of `_multivariate_ls_finalize` /
`_gls_finalize` (model.py lines 511-523 and 815-829): the payload of each
equation is produced independently by a total function, so no degenerate
statistic of any single equation can abort the loop. -/
def indiv_f_stats (debiased : Bool) (k_eqs nobs total_reg : ℕ)
    (ins : List EqFStatIn) : List FStatResult :=
  ins.map (eq_f_stat debiased k_eqs nobs total_reg)

/-- Claim C8: when the non-constant covariance submatrix of an equation is
singular, its F-statistic is the explicit invalid-statistic marker
carrying a human-readable reason rather than a number; the computation is
total (nothing is raised), the result list covers every equation, and each
payload of each equation depends only on its own inputs. -/
theorem singular_cov_f_stat_invalid (debiased : Bool) (k_eqs nobs total_reg : ℕ)
    (ins : List EqFStatIn) (i : Fin ins.length)
    (hsing : (f_stat_sel_cov (ins.get i).cov (ins.get i).hasConst
      (ins.get i).constLoc).det = 0) :
    (indiv_f_stats debiased k_eqs nobs total_reg ins).length = ins.length ∧
    (indiv_f_stats debiased k_eqs nobs total_reg ins).get
        (Fin.cast (List.length_map _ _).symm i) =
      FStatResult.invalid "Covariance is singular, possibly due to constraints."
        "Equation F-statistic" ∧
    "Covariance is singular, possibly due to constraints." ≠ "" ∧
    (∀ j : Fin ins.length,
      (indiv_f_stats debiased k_eqs nobs total_reg ins).get
          (Fin.cast (List.length_map _ _).symm j) =
        eq_f_stat debiased k_eqs nobs total_reg (ins.get j)) := by
  have hget : ∀ j : Fin ins.length,
      (indiv_f_stats debiased k_eqs nobs total_reg ins).get
          (Fin.cast (List.length_map _ _).symm j) =
        eq_f_stat debiased k_eqs nobs total_reg (ins.get j) := by
    intro j
    exact List.get_map _
  refine ⟨List.length_map _ _, ?_, by decide, hget⟩
  rw [hget i, eq_f_stat, f_stat]
  rw [np_inv, if_pos hsing]

/-- Claim C8 witness data: a two-parameter equation with an all-ones
(hence singular) covariance matrix and no constant. -/
def cx8 : EqFStatIn where
  kk := 2
  params := Matrix.of fun _ _ => 1
  cov := Matrix.of fun _ _ => 1
  hasConst := false
  constLoc := 0

/-- Claim C8 witness: on the concrete singular payload the reported
statistic is the invalid marker with its reason. -/
theorem singular_cov_f_stat_invalid_witness :
    (indiv_f_stats false 1 3 2 [cx8]).get
        (Fin.cast (List.length_map [cx8] (eq_f_stat false 1 3 2)).symm ⟨0, Nat.one_pos⟩) =
      FStatResult.invalid "Covariance is singular, possibly due to constraints."
        "Equation F-statistic" := by
  have hdet : (f_stat_sel_cov cx8.cov cx8.hasConst cx8.constLoc).det = 0 := by
    have h2 : f_stat_sel_cov cx8.cov cx8.hasConst cx8.constLoc =
        (Matrix.of fun (_ _ : Fin 2) => (1 : ℚ)) := rfl
    rw [h2, Matrix.det_fin_two]
    norm_num
  exact (singular_cov_f_stat_invalid false 1 3 2 [cx8] ⟨0, Nat.one_pos⟩ hdet).2.1

/-! ### Per-equation fit statistics (`IV3SLS._common_indiv_results`,
model.py lines 736-752) -/

/-- The residual sum of squares `residᵀ @ resid` of one equation
(model.py line 749). -/
def resid_ss {n : ℕ} (e : Fin n → ℚ) : ℚ := ∑ r, e r * e r

/-- The reported R², model.py line 751: `1 - resid_ss / total_ss`. -/
def r2_of (rss tss : ℚ) : ℚ := 1 - rss / tss

/-- The reported adjusted R², model.py line 752:
`1 - (resid_ss / df_r) / (total_ss / df_c)` with `df_r = nobs - df_model`
and `df_c = nobs - constant`. -/
def r2a_of (rss tss : ℚ) (nobs df cons : ℕ) : ℚ :=
  1 - (rss / ((nobs : ℚ) - (df : ℚ))) / (tss / ((nobs : ℚ) - (cons : ℚ)))

/-- Claim C9: the reported R² of each equation equals
`1 - resid_ss / total_ss` computed from its reported sums of squares, and
the reported adjusted R² is at most R² whenever `df_model > 1` — under
the conditions that make the statistics well defined: the source validates
that each equation has more observations than regressors and a constant
indicator of at most 1, and the total sum of squares is positive. -/
theorem r2_identities {n : ℕ} (e : Fin n → ℚ) (tss : ℚ) (nobs df cons : ℕ)
    (htss : 0 < tss) (hdfn : df < nobs) (hcons : cons ≤ 1) (hdf : 1 < df) :
    r2_of (resid_ss e) tss = 1 - resid_ss e / tss ∧
    r2a_of (resid_ss e) tss nobs df cons ≤ r2_of (resid_ss e) tss := by
  refine ⟨rfl, ?_⟩
  have hrss : 0 ≤ resid_ss e := Finset.sum_nonneg fun r _ => mul_self_nonneg (e r)
  have hdfr : (0 : ℚ) < (nobs : ℚ) - (df : ℚ) := by
    rw [sub_pos]
    exact_mod_cast hdfn
  have hdfc : (nobs : ℚ) - (df : ℚ) ≤ (nobs : ℚ) - (cons : ℚ) := by
    have : (cons : ℚ) ≤ (df : ℚ) := by exact_mod_cast le_trans hcons (le_of_lt hdf)
    linarith
  have hdfc0 : (0 : ℚ) < (nobs : ℚ) - (cons : ℚ) := lt_of_lt_of_le hdfr hdfc
  rw [r2_of, r2a_of]
  have hfrac : resid_ss e / tss ≤
      (resid_ss e / ((nobs : ℚ) - (df : ℚ))) / (tss / ((nobs : ℚ) - (cons : ℚ))) := by
    have hrw : (resid_ss e / ((nobs : ℚ) - (df : ℚ))) / (tss / ((nobs : ℚ) - (cons : ℚ))) =
        (resid_ss e / tss) * (((nobs : ℚ) - (cons : ℚ)) / ((nobs : ℚ) - (df : ℚ))) := by
      have htss2 : tss ≠ 0 := ne_of_gt htss
      have hdfr2 : (nobs : ℚ) - (df : ℚ) ≠ 0 := ne_of_gt hdfr
      have hdfc2 : (nobs : ℚ) - (cons : ℚ) ≠ 0 := ne_of_gt hdfc0
      field_simp
      exact Or.inl (mul_comm tss ((nobs : ℚ) - (df : ℚ)))
    rw [hrw]
    have hone : (1 : ℚ) ≤ ((nobs : ℚ) - (cons : ℚ)) / ((nobs : ℚ) - (df : ℚ)) :=
      (one_le_div hdfr).2 hdfc
    exact le_mul_of_one_le_right (div_nonneg hrss (le_of_lt htss)) hone
  linarith

/-- Claim C9 witness: a concrete equation with one residual of 1, total
sum of squares 2, four observations, two regressors and a constant. -/
theorem r2_identities_witness :
    r2a_of (resid_ss fun _ : Fin 1 => 1) 2 4 2 1 ≤ r2_of (resid_ss fun _ : Fin 1 => 1) 2 :=
  (r2_identities (fun _ : Fin 1 => 1) 2 4 2 1 (by norm_num) (by norm_num)
    (by norm_num) (by norm_num)).2

end LinearModels
